import Mathlib

/-!
Verification of `omnipose/core.py` claims over a shallow Lean embedding.

Conventions used throughout this development:
* machine floats are modelled by `ℚ` wherever the Python code performs
  arithmetic whose exactness matters for a claim; square roots are handled
  by characterising the squared quantity instead of evaluating `sqrt`;
* numpy arrays are modelled by structures carrying explicit spatial
  dimensions together with a pixel function;
* external-library calls (torch `grid_sample`, sklearn `DBSCAN` /
  `NearestNeighbors`, skimage `apply_hysteresis_threshold`) are either
  abstracted into function parameters or modelled from their documented
  semantics, as noted at each definition.
-/

/-! ### Section 1: the Eikonal quadratic update (`update_torch`, core.py lines 420-434)

`update_torch(a, f)` receives one column `a` per foreground pixel (the stacked
minima of antipodal neighbour pairs of a face-order group) and the group weight
`f`.  It forms cumulative sums `sum_a`, `sum_a2`, the per-prefix radicand
`sum_a**2 - d*(sum_a2 - f**2)`, counts the prefixes with nonnegative radicand
(`d = count_nonzero(radicand >= 0)`) and returns `(1/d)*(sum_a[d-1] + sqrt(radicand[d-1]))`.
We model one column as a `List ℚ`. -/

/-- `sum_a` of `update_torch`: cumulative sum of the first `k` pair minima. -/
def sumA (a : List ℚ) (k : ℕ) : ℚ := (a.take k).sum

/-- `sum_a2` of `update_torch`: cumulative sum of squares of the first `k` pair minima. -/
def sumA2 (a : List ℚ) (k : ℕ) : ℚ := ((a.take k).map (fun x => x * x)).sum

/-- The radicand `sum_a**2 - d*(sum_a2 - f**2)` of `update_torch` at prefix length `k`
(`k` plays the role of the cumulative counter `d = cumsum(ones_like(a))`). -/
def radicand (a : List ℚ) (f : ℚ) (k : ℕ) : ℚ :=
  sumA a k ^ 2 - (k : ℚ) * (sumA2 a k - f ^ 2)

/-- `d = torch.count_nonzero(radicand >= 0)` of `update_torch`: the number of prefix
lengths `k ∈ {1, …, len a}` whose radicand is nonnegative. -/
def radCount (a : List ℚ) (f : ℚ) : ℕ :=
  (List.range a.length).countP (fun i => decide (0 ≤ radicand a f (i + 1)))

/-- The return value `(1/d)*(ad + torch.sqrt(rd))` of `update_torch`, characterised
without evaluating the square root: `v` is the update value iff `d*v - ad` is the
(nonnegative) square root of the selected radicand `rd = radicand[d-1]`. -/
def IsUpdateValue (a : List ℚ) (f v : ℚ) : Prop :=
  0 ≤ (radCount a f : ℚ) * v - sumA a (radCount a f) ∧
    ((radCount a f : ℚ) * v - sumA a (radCount a f)) ^ 2 = radicand a f (radCount a f)

instance (a : List ℚ) (f v : ℚ) : Decidable (IsUpdateValue a f v) := by
  unfold IsUpdateValue; infer_instance

/-- Sum of a one-longer take peels off the element at position `k`. -/
lemma sum_take_succ (l : List ℚ) (k : ℕ) (h : k < l.length) :
    (l.take (k + 1)).sum = (l.take k).sum + l.get ⟨k, h⟩ := by
  rw [List.take_succ, List.getElem?_eq_getElem h]
  simp only [Option.toList_some, List.sum_append, List.sum_cons, List.sum_nil, add_zero,
    List.get_eq_getElem]

/-- Peeling off the last element of a one-longer prefix. -/
lemma sumA_succ (a : List ℚ) (k : ℕ) (h : k < a.length) :
    sumA a (k + 1) = sumA a k + a.get ⟨k, h⟩ := sum_take_succ a k h

/-- Peeling off the last element of a one-longer prefix, squared sums. -/
lemma sumA2_succ (a : List ℚ) (k : ℕ) (h : k < a.length) :
    sumA2 a (k + 1) = sumA2 a k + a.get ⟨k, h⟩ * a.get ⟨k, h⟩ := by
  unfold sumA2
  rw [List.map_take, List.map_take]
  have hm : k < (a.map (fun x => x * x)).length := by
    simpa using h
  rw [sum_take_succ (a.map (fun x => x * x)) k hm]
  simp

/-- The first radicand is always `f²`: `a₀² - 1*(a₀² - f²) = f²`. -/
lemma radicand_one (a : List ℚ) (f : ℚ) (ha : a ≠ []) : radicand a f 1 = f ^ 2 := by
  match a, ha with
  | x :: t, _ =>
    simp [radicand, sumA, sumA2, List.take]
    ring

/-- Key monotonicity: once a prefix radicand goes negative it stays negative.
This is the algebraic fact that makes `count_nonzero` select a genuine prefix,
so the entry `radicand[d-1]` read back by `update_torch` is nonnegative. -/
lemma radicand_succ_neg (a : List ℚ) (f : ℚ) (k : ℕ) (h1 : 1 ≤ k) (h2 : k < a.length)
    (hneg : radicand a f k < 0) : radicand a f (k + 1) < 0 := by
  set x := a.get ⟨k, h2⟩ with hx
  set S := sumA a k with hS
  set Q := sumA2 a k with hQ
  have e1 : sumA a (k + 1) = S + x := sumA_succ a k h2
  have e2 : sumA2 a (k + 1) = Q + x * x := sumA2_succ a k h2
  have hk0 : (0 : ℚ) < (k : ℚ) := by exact_mod_cast h1
  have hneg' : S ^ 2 - (k : ℚ) * (Q - f ^ 2) < 0 := hneg
  have key : (k : ℚ) * ((S + x) ^ 2 - ((k : ℚ) + 1) * (Q + x * x - f ^ 2)) =
      ((k : ℚ) + 1) * (S ^ 2 - (k : ℚ) * (Q - f ^ 2)) - ((k : ℚ) * x - S) ^ 2 := by
    ring
  have hlt : (k : ℚ) * ((S + x) ^ 2 - ((k : ℚ) + 1) * (Q + x * x - f ^ 2)) < 0 := by
    nlinarith [sq_nonneg ((k : ℚ) * x - S)]
  have : (S + x) ^ 2 - ((k : ℚ) + 1) * (Q + x * x - f ^ 2) < 0 := by
    by_contra hge
    push_neg at hge
    nlinarith
  unfold radicand
  rw [e1, e2]
  push_cast
  linarith

/-- A chain of downward implications propagates truth down from any true point. -/
lemma desc_chain (p : ℕ → Bool) :
    ∀ n, (∀ i, i < n → p (i + 1) = true → p i = true) → p n = true →
      ∀ i, i ≤ n → p i = true := by
  intro n
  induction n with
  | zero =>
    intro _ h0 i hi
    have hz : i = 0 := Nat.le_zero.mp hi
    exact hz ▸ h0
  | succ n ih =>
    intro hdc hn i hi
    rcases Nat.eq_or_lt_of_le hi with h | h
    · exact h ▸ hn
    · exact ih (fun j hj => hdc j (Nat.lt_succ_of_lt hj)) (hdc n (Nat.lt_succ_self n) hn) i
        (Nat.lt_succ_iff.mp h)

/-- For a predicate whose truth is downward closed along `range n`, the
`countP` is a prefix length, hence the last counted index still satisfies it. -/
lemma countP_last_true (p : ℕ → Bool) :
    ∀ n, (∀ i, i + 1 < n → p (i + 1) = true → p i = true) →
      0 < (List.range n).countP p → p ((List.range n).countP p - 1) = true := by
  intro n
  induction n with
  | zero =>
    intro _ hpos
    simp [List.range_zero] at hpos
  | succ n ih =>
    intro hdc hpos
    rw [List.range_succ, List.countP_append] at hpos ⊢
    by_cases hn : p n = true
    · have hall : ∀ i, i ≤ n → p i = true :=
        desc_chain p n (fun i hi hpi => hdc i (Nat.succ_lt_succ hi) hpi) hn
      have hcn : (List.range n).countP p = n := by
        rw [List.countP_eq_length.mpr]
        · exact List.length_range n
        · intro i hi
          exact hall i (Nat.le_of_lt (List.mem_range.mp hi))
      have hone : ([n].countP p) = 1 := by simp [hn]
      rw [hcn, hone]
      simpa using hn
    · have hzero : ([n].countP p) = 0 := by
        simp [List.countP_cons, hn]
      rw [hzero] at hpos ⊢
      simp only [Nat.add_zero] at hpos ⊢
      exact ih (fun i hi hpi => hdc i (Nat.lt_succ_of_lt hi) hpi) hpos

/-- C1 (amended): In `update_torch`, the selected pair count
`d = count_nonzero(radicand >= 0)` is at least 1 (the first radicand is
always `f² > 0`) and the selected radicand `radicand[d-1]` is nonnegative,
because negative radicands form a suffix of the cumulative sequence.  Hence
`update_torch` never divides by zero and never takes the square root of a
negative number: the Eikonal update never raises and never writes NaN into
the potential field.  (A face-order group hitting a negative radicand is
*not* replaced by an identity factor; only the pairs beyond the largest
prefix with nonnegative radicand are dropped from the solve.) -/
theorem C1_update_torch_no_nan (a : List ℚ) (f : ℚ) (ha : a ≠ []) (hf : f ≠ 0) :
    1 ≤ radCount a f ∧ 0 ≤ radicand a f (radCount a f) := by
  have hlen : 0 < a.length := List.length_pos.mpr ha
  have hp0 : (0 : ℚ) ≤ radicand a f 1 := by
    rw [radicand_one a f ha]
    positivity
  have hpos : 0 < radCount a f := by
    apply List.countP_pos_iff.mpr
    exact ⟨0, List.mem_range.mpr hlen, by simpa using hp0⟩
  refine ⟨hpos, ?_⟩
  have hdc : ∀ i, i + 1 < a.length →
      (fun i => decide (0 ≤ radicand a f (i + 1))) (i + 1) = true →
      (fun i => decide (0 ≤ radicand a f (i + 1))) i = true := by
    intro i hi hsucc
    simp only [decide_eq_true_eq] at hsucc ⊢
    by_contra hneg
    push_neg at hneg
    have := radicand_succ_neg a f (i + 1) (Nat.le_add_left 1 i) hi hneg
    linarith
  have hlast := countP_last_true (fun i => decide (0 ≤ radicand a f (i + 1))) a.length hdc hpos
  have hidx : radCount a f - 1 + 1 = radCount a f := Nat.succ_pred_eq_of_pos hpos
  have hlast' : 0 ≤ radicand a f (radCount a f - 1 + 1) := by
    simpa using hlast
  rw [hidx] at hlast'
  exact hlast'

/-- Witness for C1: on the column `a = [0, 0]` (a pixel whose two pair minima
are zero) with face-order weight `f = 1`, both radicands are nonnegative, the
count is `2` and the selected radicand is `2 ≥ 0`. -/
theorem C1_update_torch_no_nan_witness :
    ([ (0 : ℚ), 0] ≠ []) ∧ ((1 : ℚ) ≠ 0) ∧
      (1 ≤ radCount [0, 0] 1 ∧ 0 ≤ radicand [0, 0] 1 (radCount [0, 0] 1)) :=
  ⟨by simp, by norm_num, C1_update_torch_no_nan [0, 0] 1 (by simp) (by norm_num)⟩

/-- C1 counterexample: the claim says a face-order group whose radicand goes
negative contributes the identity factor `1` to the iteration's product.  On
the column `a = [1, 3]` with weight `f = 1` the second radicand is `-2 < 0`,
yet the value returned by `update_torch` for this group is `2` (the count is
`d = 1`, `ad = 1`, `rd = 1`, so `(1/d)*(ad + sqrt rd) = 2`), not the identity
factor `1`. -/
theorem C1_counterexample :
    radicand [(1 : ℚ), 3] 1 2 < 0 ∧ IsUpdateValue [1, 3] 1 2 ∧ ¬ IsUpdateValue [1, 3] 1 1 := by
  have r1 : radicand [(1 : ℚ), 3] 1 1 = 1 := by
    norm_num [radicand, sumA, sumA2]
  have r2 : radicand [(1 : ℚ), 3] 1 2 = -2 := by
    norm_num [radicand, sumA, sumA2]
  have hc : radCount [(1 : ℚ), 3] 1 = 1 := by
    norm_num [radCount, List.range_succ, List.countP_append, List.countP_cons, r1, r2]
  have hs : sumA [(1 : ℚ), 3] 1 = 1 := by
    norm_num [sumA]
  refine ⟨by rw [r2]; norm_num, ⟨?_, ?_⟩, fun hcl => ?_⟩
  · rw [hc, hs]
    norm_num
  · rw [hc, hs, r1]
    norm_num
  · obtain ⟨-, h2⟩ := hcl
    rw [hc, hs, r1] at h2
    norm_num at h2

/-! ### Section 2: image infrastructure

2-D numpy arrays are modelled as a structure with explicit height/width and a
total pixel function; all operations read pixels only at in-range coordinates. -/

/-- An integer-valued image (a label array such as `masks`). -/
structure ZImg where
  h : ℕ
  w : ℕ
  pix : ℕ → ℕ → ℤ

/-- A rational-valued image (a scalar field such as `dist`). -/
structure QImg where
  h : ℕ
  w : ℕ
  pix : ℕ → ℕ → ℚ

/-- A two-component rational field (an axis-major flow array `dP` of shape
`(2, h, w)`). -/
structure Flow2 where
  h : ℕ
  w : ℕ
  pix : Fin 2 → ℕ → ℕ → ℚ

/-- Row-major enumeration of all in-range coordinates, matching numpy's scan
order (the order produced by `np.nonzero`). -/
def coordList (h w : ℕ) : List (ℕ × ℕ) :=
  (List.range h).flatMap (fun y => (List.range w).map (fun x => (y, x)))

/-- `np.nonzero(masks)` as a coordinate list: the foreground pixels in row-major
order. -/
def fgCoords (m : ZImg) : List (ℕ × ℕ) :=
  (coordList m.h m.w).filter (fun c => decide (m.pix c.1 c.2 ≠ 0))

lemma mem_fgCoords (m : ZImg) (c : ℕ × ℕ) (hc : c ∈ fgCoords m) : m.pix c.1 c.2 ≠ 0 := by
  have := List.mem_filter.mp hc
  simpa using this.2

/-! ### Section 3: `masks_to_flows_torch` scatter (core.py lines 266-309), claim C2

After the solver and `utils.normalize_field`, `masks_to_flows_torch` executes
`mu0 = np.zeros((mu.shape[0],)+masks.shape)` followed by
`mu0[(Ellipsis,)+np.nonzero(masks)] = mu` and returns `mu0`.  The per-pixel
solver output (including whatever normalisation did) is abstracted as
`mu : (ℕ × ℕ) → Fin 2 → ℚ`, read off at the foreground coordinates in
`np.nonzero` order exactly as the fancy-indexing assignment does. -/

/-- One fancy-indexing assignment `mu0[:, c] = mu c` on a function-valued buffer. -/
def scatterAt (f : Fin 2 → ℕ → ℕ → ℚ) (c : ℕ × ℕ) (v : Fin 2 → ℚ) :
    Fin 2 → ℕ → ℕ → ℚ :=
  fun i y x => if (y, x) = c then v i else f i y x

/-- `mu0 = np.zeros(...); mu0[(Ellipsis,)+np.nonzero(masks)] = mu`. -/
def scatterFlow (m : ZImg) (mu : (ℕ × ℕ) → Fin 2 → ℚ) : Flow2 :=
  { h := m.h, w := m.w,
    pix := (fgCoords m).foldl (fun f c => scatterAt f c (mu c)) (fun _ _ _ => 0) }

/-- `masks_to_flows_torch` with the diffusion/normalisation output abstracted:
`if np.any(masks):` scatter the per-foreground-pixel field into zeros,
`else:` return `np.zeros((masks.ndim,)+masks.shape)`. -/
def masks_to_flows_torch (m : ZImg) (mu : (ℕ × ℕ) → Fin 2 → ℚ) : Flow2 :=
  if fgCoords m = [] then { h := m.h, w := m.w, pix := fun _ _ _ => 0 }
  else scatterFlow m mu

/-- A coordinate never written by the scatter fold keeps the value of the
initial buffer. -/
lemma foldl_scatter_not_mem (l : List (ℕ × ℕ)) (mu : (ℕ × ℕ) → Fin 2 → ℚ)
    (f0 : Fin 2 → ℕ → ℕ → ℚ) (y x : ℕ) (h : (y, x) ∉ l) (i : Fin 2) :
    (l.foldl (fun f c => scatterAt f c (mu c)) f0) i y x = f0 i y x := by
  induction l generalizing f0 with
  | nil => rfl
  | cons c t ih =>
    have hnt : (y, x) ∉ t := fun hm => h (List.mem_cons_of_mem c hm)
    have hne : (y, x) ≠ c := fun he => h (he ▸ List.mem_cons_self c t)
    rw [List.foldl_cons, ih (scatterAt f0 c (mu c)) hnt]
    simp [scatterAt, hne]

/-- C2: for every label image and every per-pixel solver output, the flow
field returned by `masks_to_flows_torch` is zero in every component at every
pixel whose label is `0`; only foreground pixels may carry nonzero flow. -/
theorem C2_flow_zero_outside_foreground (m : ZImg) (mu : (ℕ × ℕ) → Fin 2 → ℚ)
    (y x : ℕ) (h : m.pix y x = 0) (i : Fin 2) :
    (masks_to_flows_torch m mu).pix i y x = 0 := by
  unfold masks_to_flows_torch
  by_cases hc : fgCoords m = []
  · simp [hc]
  · have hnm : (y, x) ∉ fgCoords m := by
      intro hm
      exact mem_fgCoords m (y, x) hm h
    simp only [hc, if_false]
    exact foldl_scatter_not_mem (fgCoords m) mu (fun _ _ _ => 0) y x hnm i

/-- Witness for C2: a 2×2 label image with a single foreground pixel at
`(0, 0)` and an arbitrary nonzero solver output; the background pixel `(1, 1)`
gets flow `0` in both components. -/
theorem C2_flow_zero_outside_foreground_witness :
    (ZImg.mk 2 2 (fun y x => if (y, x) = (0, 0) then 1 else 0)).pix 1 1 = 0 ∧
      (masks_to_flows_torch (ZImg.mk 2 2 (fun y x => if (y, x) = (0, 0) then 1 else 0))
        (fun _ _ => 7)).pix 0 1 1 = 0 :=
  ⟨by decide,
    C2_flow_zero_outside_foreground (ZImg.mk 2 2 (fun y x => if (y, x) = (0, 0) then 1 else 0))
      (fun _ _ => 7) 1 1 (by decide) 0⟩

/-! ### Section 4: `compute_masks` degenerate path (core.py lines 439-516), claim C3

`compute_masks` thresholds the distance field with
`filters.apply_hysteresis_threshold(dist, mask_threshold-1, mask_threshold)`
and, when `np.any(mask)` is false, returns an all-zero label image of shape
`resize` (if given, else `dist`'s shape) together with the dummy point set
`p = np.zeros([2,1,1])`, touching none of the downstream stages. -/

/-- 8-connectivity (full connectivity in 2-D, skimage's default for `label`). -/
def adj8 (c c' : ℕ × ℕ) : Bool :=
  decide (c.1 ≤ c'.1 + 1) && decide (c'.1 ≤ c.1 + 1) &&
    decide (c.2 ≤ c'.2 + 1) && decide (c'.2 ≤ c.2 + 1) && decide (c ≠ c')

/-- One growth round of hysteresis thresholding: add every pixel above the low
threshold that touches the current set. -/
def hystStep (dist : QImg) (low : ℚ) (s : Finset (ℕ × ℕ)) : Finset (ℕ × ℕ) :=
  s ∪ ((coordList dist.h dist.w).filter
        (fun c => decide (low < dist.pix c.1 c.2) && decide (∃ c' ∈ s, adj8 c c' = true))).toFinset

/-- Modelled from the external skimage routine `filters.apply_hysteresis_threshold`
(used at core.py line 450, absent from this repository): pixels above the high
threshold seed the mask, and the mask grows through pixels above the low
threshold that are connected to a seed; iterating the growth once per pixel
reaches the fixpoint. -/
def applyHysteresisThreshold (dist : QImg) (low high : ℚ) : Finset (ℕ × ℕ) :=
  (hystStep dist low)^[dist.h * dist.w]
    (((coordList dist.h dist.w).filter (fun c => decide (high < dist.pix c.1 c.2))).toFinset)

/-- Growing the empty set adds nothing. -/
lemma hystStep_empty (dist : QImg) (low : ℚ) : hystStep dist low ∅ = ∅ := by
  unfold hystStep
  rw [List.filter_eq_nil_iff.mpr]
  · simp
  · intro c _
    simp

/-- If no pixel exceeds the high threshold there are no seeds and the
hysteresis mask is empty. -/
lemma applyHysteresisThreshold_empty (dist : QImg) (low high : ℚ)
    (h : ∀ c ∈ coordList dist.h dist.w, dist.pix c.1 c.2 ≤ high) :
    applyHysteresisThreshold dist low high = ∅ := by
  unfold applyHysteresisThreshold
  have hseed : ((coordList dist.h dist.w).filter
      (fun c => decide (high < dist.pix c.1 c.2))).toFinset = ∅ := by
    rw [List.filter_eq_nil_iff.mpr]
    · simp
    · intro c hc
      simpa using not_lt.mpr (h c hc)
  rw [hseed]
  exact Function.iterate_fixed (hystStep_empty dist low) _

/-- The all-zero label image of a given shape (`np.zeros(resize)` /
`np.zeros_like(dist)`). -/
def zeroMask (s : ℕ × ℕ) : ZImg := { h := s.1, w := s.2, pix := fun _ _ => 0 }

/-- The placeholder point set `p = np.zeros([2,1,1])` of the degenerate branch. -/
def dummyPointSet : Flow2 := { h := 1, w := 1, pix := fun _ _ _ => 0 }

/-- The orchestrator `compute_masks`, with the downstream stages (advection,
instance reconstruction, flow-consistency filtering, cleanup) abstracted as
function parameters; only the thresholding and the branch structure are
concrete.  The source tests `if np.any(mask):` and runs the pipeline in the
positive branch; the negative branch returns the zero image and dummy point set. -/
def compute_masks (advect : Flow2 → Finset (ℕ × ℕ) → Flow2)
    (recon : Flow2 → Finset (ℕ × ℕ) → ZImg)
    (filt : ZImg → Flow2 → ZImg) (clean : ZImg → ZImg)
    (dP : Flow2) (dist : QImg) (θ : ℚ) (resize : Option (ℕ × ℕ)) : ZImg × Flow2 :=
  let fgm := applyHysteresisThreshold dist (θ - 1) θ
  if fgm = ∅ then
    (zeroMask (resize.getD (dist.h, dist.w)), dummyPointSet)
  else
    let p := advect dP fgm
    let m1 := recon p fgm
    let m2 := filt m1 dP
    (clean m2, p)

/-- C3: when no pixel passes the foreground threshold, `compute_masks` returns
the all-zero label image of the requested output shape (the resize shape if
given, otherwise the input's spatial shape) and the dummy point set, and the
result is independent of every downstream stage (advection, reconstruction,
filtering, cleanup are never invoked). -/
theorem C3_compute_masks_degenerate
    (advect advect' : Flow2 → Finset (ℕ × ℕ) → Flow2)
    (recon recon' : Flow2 → Finset (ℕ × ℕ) → ZImg)
    (filt filt' : ZImg → Flow2 → ZImg) (clean clean' : ZImg → ZImg)
    (dP : Flow2) (dist : QImg) (θ : ℚ) (resize : Option (ℕ × ℕ))
    (h : ∀ c ∈ coordList dist.h dist.w, dist.pix c.1 c.2 ≤ θ) :
    compute_masks advect recon filt clean dP dist θ resize =
      (zeroMask (resize.getD (dist.h, dist.w)), dummyPointSet) ∧
    compute_masks advect recon filt clean dP dist θ resize =
      compute_masks advect' recon' filt' clean' dP dist θ resize := by
  have hempty := applyHysteresisThreshold_empty dist (θ - 1) θ h
  constructor
  · unfold compute_masks
    simp [hempty]
  · unfold compute_masks
    simp [hempty]

/-- Witness for C3: a 2×2 all-zero distance field with threshold 0 and resize
`(5, 5)`; `compute_masks` returns the 5×5 zero image and dummy point set. -/
theorem C3_compute_masks_degenerate_witness :
    (∀ c ∈ coordList 2 2, (QImg.mk 2 2 (fun _ _ => 0)).pix c.1 c.2 ≤ (0 : ℚ)) ∧
      compute_masks (fun p _ => p) (fun _ _ => zeroMask (3, 3)) (fun m _ => m) (fun m => m)
        dummyPointSet (QImg.mk 2 2 (fun _ _ => 0)) 0 (some (5, 5)) =
        (zeroMask (5, 5), dummyPointSet) :=
  ⟨fun _ _ => le_refl 0,
    (C3_compute_masks_degenerate (fun p _ => p) (fun p _ => p)
      (fun _ _ => zeroMask (3, 3)) (fun _ _ => zeroMask (3, 3)) (fun m _ => m) (fun m _ => m)
      (fun m => m) (fun m => m) dummyPointSet (QImg.mk 2 2 (fun _ _ => 0)) 0 (some (5, 5))
      (fun _ _ => le_refl 0)).1⟩

/-! ### Section 5: `follow_flows` (core.py lines 867-938), claim C9

`follow_flows` builds the integer meshgrid `p`, collects the foreground pixel
indices `inds = np.array(np.nonzero(mask)).T`, and, `if inds.ndim < 2 or
inds.shape[0] < 5`, returns `(p, inds, None)` before any stepping; otherwise
it runs the integrator on the foreground pixels and scatters the result back
into `p`.  The integrator (`steps_interp` / `steps2D`) is abstracted as a
function parameter. -/

/-- `p = np.meshgrid(*[arange(shape[i])], indexing='ij')` as a 2-component
point image: every pixel sits at its own integer coordinates. -/
def meshgridP (h w : ℕ) : Flow2 :=
  { h := h, w := w, pix := fun i y x => if i = 0 then (y : ℚ) else (x : ℚ) }

/-- `follow_flows` with the stepping routine abstracted (it returns the stepped
positions of the foreground pixels and an optional trace). -/
def follow_flows (stepper : Flow2 → List (ℕ × ℕ) → ℕ → Flow2 × Option Flow2)
    (dP : Flow2) (mask : ZImg) (niter : ℕ) : Flow2 × List (ℕ × ℕ) × Option Flow2 :=
  let p := meshgridP dP.h dP.w
  let inds := fgCoords mask
  if inds.length < 5 then
    (p, inds, none)
  else
    let st := stepper dP inds niter
    ({ h := p.h, w := p.w,
       pix := inds.foldl (fun f c => scatterAt f c (fun i => st.1.pix i c.1 c.2)) p.pix },
      inds, st.2)

/-- C9: when the foreground mask has fewer than 5 pixels, `follow_flows`
performs no integration step: it returns the untouched integer meshgrid (every
pixel, foreground included, at its own integer coordinates), the foreground
index list, and no trajectory — independently of the integrator and the flow
values. -/
theorem C9_follow_flows_few_pixels (stepper : Flow2 → List (ℕ × ℕ) → ℕ → Flow2 × Option Flow2)
    (dP : Flow2) (mask : ZImg) (niter : ℕ) (h : (fgCoords mask).length < 5) :
    follow_flows stepper dP mask niter = (meshgridP dP.h dP.w, fgCoords mask, none) := by
  unfold follow_flows
  simp [h]

/-- Witness for C9: a 3-pixel foreground mask on a 3×3 grid; `follow_flows`
returns the meshgrid, the 3 foreground indices and no trace. -/
theorem C9_follow_flows_few_pixels_witness :
    (fgCoords (ZImg.mk 3 3 (fun y x => if y = 0 ∧ x ≤ 2 then 1 else 0))).length < 5 ∧
      follow_flows (fun dp _ _ => (dp, some dp)) (Flow2.mk 3 3 (fun _ _ _ => 1))
          (ZImg.mk 3 3 (fun y x => if y = 0 ∧ x ≤ 2 then 1 else 0)) 200 =
        (meshgridP 3 3, fgCoords (ZImg.mk 3 3 (fun y x => if y = 0 ∧ x ≤ 2 then 1 else 0)), none) :=
  ⟨by decide,
    C9_follow_flows_few_pixels (fun dp _ _ => (dp, some dp)) (Flow2.mk 3 3 (fun _ _ _ => 1))
      (ZImg.mk 3 3 (fun y x => if y = 0 ∧ x ≤ 2 then 1 else 0)) 200 (by decide)⟩

/-! ### Section 6: density-based clustering branch of `get_masks`
(core.py lines 586-608), claim C4

`get_masks` runs `DBSCAN(eps=eps, min_samples=3, n_jobs=-1).fit(newinds)` and
then snaps outliers: `o_inds = np.where(db.labels_==-1)[0]`; only
`if len(o_inds)>1` it queries the 50 nearest neighbours of each outlier and
assigns `l = [n[(np.where(n!=-1)+(0,))[0][0]] for n in ns]` — the first
non-noise label among the neighbours, an IndexError if all 50 are noise —
then writes `mask[cell_px] = labels+1`.  DBSCAN and the neighbour query are
external sklearn calls: the cluster labels and the per-outlier neighbour index
lists enter as parameters. -/

/-- The `min_samples` argument of the `DBSCAN` call in `get_masks`. -/
def dbscanMinSamples : ℕ := 3

/-- The `eps` used in the `nclasses >= 4` branch (`eps = 1+1/3`). -/
def dbscanEps : ℚ := 1 + 1 / 3

/-- `n[(np.where(n!=-1)+(0,))[0][0]]`: the first non-noise label among the
neighbour labels, or `none` for the IndexError raised when all are noise. -/
def pickLabel (labels : List ℤ) (nbrs : List ℕ) : Option ℤ :=
  (nbrs.map (fun j => labels.getD j 0)).find? (fun l => l != -1)

/-- The outlier-snapping step of `get_masks`: locate the noise points, and
only when there are more than one, rewrite each noise entry with the first
non-noise label among its neighbours (`none` models the IndexError). -/
def snapNoise (labels : List ℤ) (kNbrs : ℕ → List ℕ) : Option (List ℤ) :=
  let o := (List.range labels.length).filter (fun i => decide (labels.getD i 0 = -1))
  if 1 < o.length then
    if ∀ i ∈ o, (pickLabel labels (kNbrs i)).isSome then
      some ((List.range labels.length).map
        (fun i => if labels.getD i 0 = -1 then (pickLabel labels (kNbrs i)).getD (-1)
                  else labels.getD i 0))
    else none
  else some labels

/-- `mask[cell_px] = labels+1`: the per-point mask values written by the
clustering branch (noise that stayed `-1` becomes background `0`). -/
def clusterMaskValues (labels : List ℤ) (kNbrs : ℕ → List ℕ) : Option (List ℤ) :=
  (snapNoise labels kNbrs).map (List.map (· + 1))

/-- Out-of-range reads default to `0`; together with the DBSCAN range this
bounds every neighbour label from below by `-1`. -/
lemma getD_ge_neg_one (labels : List ℤ) (hge : ∀ l ∈ labels, -1 ≤ l) (j : ℕ) :
    -1 ≤ labels.getD j 0 := by
  by_cases hj : j < labels.length
  · rw [List.getD_eq_getElem labels 0 hj]
    exact hge _ (List.getElem_mem hj)
  · rw [List.getD_eq_default labels 0 (Nat.le_of_not_lt hj)]
    norm_num

/-- C4 counterexample: with cluster labels `[0, 0, 0, -1]` (one three-point
cluster and exactly one noise point — realisable by `DBSCAN` with
`min_samples = 3`), the guard `if len(o_inds)>1` skips the snapping, the noise
point keeps label `-1`, and `mask[cell_px] = labels+1` writes background `0`
for it: a noise point is left unlabeled, contradicting the claim. -/
theorem C4_counterexample :
    clusterMaskValues [0, 0, 0, -1] (fun _ => [3, 0, 1, 2]) = some [1, 1, 1, 0] ∧
      (0 : ℤ) ∈ [(1 : ℤ), 1, 1, 0] := by
  decide

/-- C4 (amended): the clustering branch calls DBSCAN with minimum cluster size
`dbscanMinSamples = 3`, but noise points are reassigned only when there are at
least two of them; when additionally every noise point has a non-noise label
among its queried neighbours, the snapping succeeds and no point is left
unlabeled: every written mask value is at least 1.  (A single noise point, or
a noise point whose 50 neighbours are all noise, is not rescued.) -/
theorem C4_snap_amended (labels : List ℤ) (kNbrs : ℕ → List ℕ)
    (hge : ∀ l ∈ labels, -1 ≤ l)
    (hcnt : ((List.range labels.length).filter
      (fun i => decide (labels.getD i 0 = -1))).length ≠ 1)
    (hnb : ∀ i ∈ (List.range labels.length).filter
      (fun i => decide (labels.getD i 0 = -1)), ∃ j ∈ kNbrs i, labels.getD j 0 ≠ -1) :
    ∃ res, clusterMaskValues labels kNbrs = some res ∧ ∀ v ∈ res, 1 ≤ v := by
  unfold clusterMaskValues snapNoise
  by_cases h1 : 1 < ((List.range labels.length).filter
      (fun i => decide (labels.getD i 0 = -1))).length
  · have hsome : ∀ i ∈ (List.range labels.length).filter
        (fun i => decide (labels.getD i 0 = -1)), (pickLabel labels (kNbrs i)).isSome := by
      intro i hi
      obtain ⟨j, hj, hjl⟩ := hnb i hi
      unfold pickLabel
      rw [List.find?_isSome]
      exact ⟨labels.getD j 0, List.mem_map.mpr ⟨j, hj, rfl⟩, by simpa using hjl⟩
    rw [if_pos h1, if_pos hsome]
    refine ⟨_, rfl, ?_⟩
    intro v hv
    obtain ⟨u, hu, huv⟩ := List.mem_map.mp hv
    obtain ⟨i, hi, hiu⟩ := List.mem_map.mp hu
    by_cases hni : labels.getD i 0 = -1
    · rw [if_pos hni] at hiu
      have hisome : (pickLabel labels (kNbrs i)).isSome := by
        apply hsome
        rw [List.mem_filter]
        exact ⟨hi, by simpa using hni⟩
      obtain ⟨x, hx⟩ := Option.isSome_iff_exists.mp hisome
      have hxne : x ≠ -1 := by
        have := List.find?_some hx
        simpa using this
      have hxmem := List.mem_of_find?_eq_some hx
      obtain ⟨j, -, hj⟩ := List.mem_map.mp hxmem
      have hxge : -1 ≤ x := hj ▸ getD_ge_neg_one labels hge j
      rw [hx] at hiu
      simp only [Option.getD_some] at hiu
      omega
    · rw [if_neg hni] at hiu
      have hge' : -1 ≤ labels.getD i 0 := getD_ge_neg_one labels hge i
      omega
  · have h0 : ((List.range labels.length).filter
        (fun i => decide (labels.getD i 0 = -1))).length = 0 := by
      omega
    rw [if_neg h1]
    refine ⟨_, rfl, ?_⟩
    intro v hv
    obtain ⟨u, hu, huv⟩ := List.mem_map.mp hv
    obtain ⟨i, hil, hiu⟩ := List.mem_iff_getElem.mp hu
    have hne : ¬ (labels.getD i 0 = -1) := by
      intro hcontra
      have : i ∈ (List.range labels.length).filter
          (fun i => decide (labels.getD i 0 = -1)) := by
        rw [List.mem_filter]
        exact ⟨List.mem_range.mpr hil, by simpa using hcontra⟩
      rw [List.length_eq_zero] at h0
      rw [h0] at this
      exact absurd this (List.not_mem_nil i)
    have hgd : labels.getD i 0 = u := by
      rw [List.getD_eq_getElem labels 0 hil, hiu]
    have : -1 ≤ u := hgd ▸ getD_ge_neg_one labels hge i
    rw [hgd] at hne
    omega

/-- Witness for C4 (amended): labels `[0, -1, 3, -1]` (two noise points) with a
neighbour query returning point `2` (label `3`): all written values are ≥ 1. -/
theorem C4_snap_amended_witness :
    (∀ l ∈ [(0 : ℤ), -1, 3, -1], -1 ≤ l) ∧
      (((List.range 4).filter
        (fun i => decide (([(0 : ℤ), -1, 3, -1]).getD i 0 = -1))).length ≠ 1) ∧
      (∃ res, clusterMaskValues [0, -1, 3, -1] (fun _ => [2]) = some res ∧ ∀ v ∈ res, 1 ≤ v) :=
  ⟨by decide, by decide,
    C4_snap_amended [0, -1, 3, -1] (fun _ => [2]) (by decide) (by decide) (by decide)⟩

/-! ### Section 7: `steps_interp` (core.py lines 678-754) and `step_factor`
(lines 523-526), claim C5

In the interpolated (torch `grid_sample`) path, positions are normalised to
`[-1, 1]` and then, per step `t`: `dPt = grid_sample(im, pt)`;
`dPt = (dPt + dPt0)/2`; `dPt0 = dPt.clone()`; `dPt /= step_factor(t)`;
`pt = clamp(pt + dPt, -1, 1)`, where `dPt0` was initialised with
`grid_sample(im, pt)` at the initial positions.  The interpolated field
lookup is abstracted as `sample : (ι → ℚ) → ι → ℚ` over an index type `ι` of
tracked scalar position components. -/

/-- `step_factor(t) = (1+t)`, the Euler suppression factor. -/
def step_factor (t : ℕ) : ℚ := 1 + (t : ℚ)

/-- `torch.clamp(·, -1., 1.)` on a normalised coordinate. -/
def clampUnit (x : ℚ) : ℚ := max (-1) (min 1 x)

/-- One iteration of the `steps_interp` loop on the state
(positions, momentum buffer `dPt0`). -/
def interpStep {ι : Type} (sample : (ι → ℚ) → ι → ℚ) (t : ℕ)
    (st : (ι → ℚ) × (ι → ℚ)) : (ι → ℚ) × (ι → ℚ) :=
  (fun i => clampUnit (st.1 i + ((sample st.1 i + st.2 i) / 2) / step_factor t),
   fun i => (sample st.1 i + st.2 i) / 2)

/-- The state of `steps_interp` after `t` loop iterations; the momentum buffer
starts as the field sampled at the initial positions (`dPt0` initialisation,
core.py line 709). -/
def steps_interp {ι : Type} (sample : (ι → ℚ) → ι → ℚ) (p0 : ι → ℚ) :
    ℕ → ((ι → ℚ) × (ι → ℚ))
  | 0 => (p0, sample p0)
  | t + 1 => interpStep sample t (steps_interp sample p0 t)

/-- The trajectory the claim describes: at step `t` the displacement is the
average of the field sampled at the current position and the field sampled at
the *previous step's* position, divided by `1+t` (state: current and previous
positions, with the previous position initialised to the start). -/
def claimTraj {ι : Type} (sample : (ι → ℚ) → ι → ℚ) (p0 : ι → ℚ) :
    ℕ → ((ι → ℚ) × (ι → ℚ))
  | 0 => (p0, p0)
  | t + 1 =>
    (fun i => clampUnit ((claimTraj sample p0 t).1 i +
        ((sample (claimTraj sample p0 t).1 i + sample (claimTraj sample p0 t).2 i) / 2) /
          step_factor t),
     (claimTraj sample p0 t).1)

/-- The identity field on one tracked scalar component, a bilinear sample of a
linear flow image. -/
def idSample : (Unit → ℚ) → Unit → ℚ := fun p => p

/-- The constant initial position `1/4`. -/
def quarterPos : Unit → ℚ := fun _ => 1 / 4

/-- C5 counterexample: with the identity field and start `1/4`, the code's
position after 3 steps is `83/96`, while averaging with the previous *raw*
sample (as the claim states) would give `85/96`: from `t = 2` on, `dPt0` holds
the previous momentum blend, not the previous step's sample. -/
theorem C5_counterexample :
    (steps_interp idSample quarterPos 3).1 () ≠ (claimTraj idSample quarterPos 3).1 () ∧
      (steps_interp idSample quarterPos 3).1 () = 83 / 96 ∧
      (claimTraj idSample quarterPos 3).1 () = 85 / 96 := by
  have hcode : (steps_interp idSample quarterPos 3).1 () = 83 / 96 := by
    norm_num [steps_interp, interpStep, idSample, quarterPos, clampUnit, step_factor,
      min_def, max_def]
  have hclaim : (claimTraj idSample quarterPos 3).1 () = 85 / 96 := by
    norm_num [claimTraj, idSample, quarterPos, clampUnit, step_factor, min_def, max_def]
  refine ⟨?_, hcode, hclaim⟩
  rw [hcode, hclaim]
  norm_num

/-- C5 (amended): in the interpolated path, at every step `t` the position
update adds the momentum blend divided by the damping factor, the damping
factor is exactly `1+t`, and the momentum blend after step `t` is an
exponentially-weighted average of *all* samples so far (`sample` at step `k`
weighted `2^-(t+1-k)`, plus the initial sample weighted `2^-(t+1)`) — not the
average of the current and the previous step's raw sample. -/
theorem C5_steps_interp_amended {ι : Type} (sample : (ι → ℚ) → ι → ℚ) (p0 : ι → ℚ)
    (t : ℕ) (i : ι) :
    step_factor t = 1 + (t : ℚ) ∧
    (steps_interp sample p0 (t + 1)).1 i =
      clampUnit ((steps_interp sample p0 t).1 i +
        (steps_interp sample p0 (t + 1)).2 i / step_factor t) ∧
    (steps_interp sample p0 (t + 1)).2 i =
      (∑ k ∈ Finset.range (t + 1),
        sample ((steps_interp sample p0 k).1) i / 2 ^ (t + 1 - k)) +
        sample p0 i / 2 ^ (t + 1) := by
  refine ⟨rfl, rfl, ?_⟩
  induction t with
  | zero =>
    show (sample ((steps_interp sample p0 0).1) i + (steps_interp sample p0 0).2 i) / 2 = _
    rw [Finset.sum_range_one]
    show (sample p0 i + sample p0 i) / 2 =
      sample p0 i / 2 ^ (0 + 1 - 0) + sample p0 i / 2 ^ (0 + 1)
    norm_num
  | succ t ih =>
    show (sample ((steps_interp sample p0 (t + 1)).1) i +
        (steps_interp sample p0 (t + 1)).2 i) / 2 = _
    rw [ih]
    conv_rhs => rw [Finset.sum_range_succ]
    have hhalf : (∑ k ∈ Finset.range (t + 1),
        sample ((steps_interp sample p0 k).1) i / 2 ^ (t + 1 - k)) / 2 =
        ∑ k ∈ Finset.range (t + 1),
          sample ((steps_interp sample p0 k).1) i / 2 ^ (t + 2 - k) := by
      rw [Finset.sum_div]
      apply Finset.sum_congr rfl
      intro k hk
      have hk' : k ≤ t := Nat.lt_succ_iff.mp (Finset.mem_range.mp hk)
      have he : t + 2 - k = (t + 1 - k) + 1 := by omega
      rw [he, pow_succ]
      ring
    have he3 : (∑ k ∈ Finset.range (t + 1),
        sample ((steps_interp sample p0 k).1) i / 2 ^ (t + 1 + 1 - k)) =
        ∑ k ∈ Finset.range (t + 1),
          sample ((steps_interp sample p0 k).1) i / 2 ^ (t + 2 - k) :=
      Finset.sum_congr rfl (fun k _ => by
        rw [show t + 1 + 1 - k = t + 2 - k from by omega])
    rw [he3, show t + 1 + 1 - (t + 1) = 1 from by omega, pow_one, ← hhalf,
      show (2 : ℚ) ^ (t + 1 + 1) = 2 ^ (t + 1) * 2 from pow_succ 2 (t + 1)]
    ring

/-! ### Section 8: `flow_error` and `remove_bad_flow_masks`
(core.py lines 940-1019), claims C6, C8, C10

`flow_error(maski, dP_net)` first checks `dP_net.shape[1:] != maski.shape` and
returns `None` on mismatch.  Otherwise it relabels
`maski = np.unique(maski, return_inverse=True)[1]` (value ↦ its rank among the
distinct pixel values), recomputes flows from the relabeled mask via
`masks_to_flows`, and accumulates per-instance means
`flow_errors += mean((dP_masks[i]-dP_net[i]/5.)**2, maski, index=1..max)`.
`remove_bad_flow_masks` then zeroes `masks[np.isin(masks, badi)]` with
`badi = 1+(merrors>threshold).nonzero()[0]` — indices of *relabeled*
instances, matched against the *original* label values.

The recomputed flow cannot be evaluated exactly (Eikonal square roots,
`utils.normalize_field`), so the solver enters as a parameter constrained by
`SolverOK`: its output must vanish wherever the masked central difference of
*some* potential field vanishes (the `grads` step of `_extend_centers_torch`,
lines 391-396), since the normalisation — modelled from the spec as a global
rescale to unit maximal magnitude — preserves zero components. -/

/-- Label lookup on the zero-padded grid (`masks_padded`): out-of-range reads
give background `0`. -/
def labAt (m : ZImg) (y x : ℤ) : ℤ :=
  if 0 ≤ y ∧ y < (m.h : ℤ) ∧ 0 ≤ x ∧ x < (m.w : ℤ) then m.pix y.toNat x.toNat else 0

/-- One entry of `grads = T[cardinal_points]*mask` (`_extend_centers_torch`,
line 395): the potential at a cardinal neighbour, masked to `0` unless the
neighbour carries the same label as the centre. -/
def gradTerm (m : ZImg) (T : ℤ × ℤ → ℚ) (y x dy dx : ℤ) : ℚ :=
  if labAt m (y + dy) (x + dx) = labAt m y x then T (y + dy, x + dx) else 0

/-- `mu_torch = stack([(grads[-(i+1)]-grads[i])/2])` (line 396): the
boundary-respecting central difference of the potential `T`, scattered over
the foreground (background pixels carry `0`, cf. C2). -/
def muFromT (m : ZImg) (T : ℤ × ℤ → ℚ) : Flow2 :=
  { h := m.h, w := m.w,
    pix := fun i y x =>
      if m.pix y x ≠ 0 then
        if i = 0 then (gradTerm m T y x 1 0 - gradTerm m T y x (-1) 0) / 2
        else (gradTerm m T y x 0 1 - gradTerm m T y x 0 (-1)) / 2
      else 0 }

/-- Modelled from the spec: an admissible recomputed-flow solver
(`masks_to_flows` composed with `utils.normalize_field`, the latter missing
from `src/` and described as a global rescale keeping the finite-vector
magnitude in `[0,1]`) has the mask's shape and, for *some* potential field
`T`, vanishes wherever the masked central difference of `T` vanishes —
global rescaling preserves zero components. -/
def SolverOK (s : ZImg → Flow2) : Prop :=
  ∀ m : ZImg, (s m).h = m.h ∧ (s m).w = m.w ∧
    ∃ T : ℤ × ℤ → ℚ, ∀ (i : Fin 2) (y x : ℕ),
      (muFromT m T).pix i y x = 0 → (s m).pix i y x = 0

/-- The everywhere-zero solver (the exact recomputed flow for masks whose
instances are isolated single pixels). -/
def solver0 : ZImg → Flow2 := fun m => { h := m.h, w := m.w, pix := fun _ _ _ => 0 }

lemma solverOK_solver0 : SolverOK solver0 :=
  fun _ => ⟨rfl, rfl, fun _ => 0, fun _ _ _ _ => rfl⟩

/-- The distinct pixel values of the image (`np.unique(maski)`). -/
def allValsF (m : ZImg) : Finset ℤ :=
  ((coordList m.h m.w).map (fun c => m.pix c.1 c.2)).toFinset

/-- The inverse-index of `np.unique(..., return_inverse=True)`: the rank of a
value among the distinct pixel values (number of strictly smaller values). -/
def rank (m : ZImg) (v : ℤ) : ℕ := ((allValsF m).filter (fun u => u < v)).card

/-- `maski = np.reshape(np.unique(maski, return_inverse=True)[1], maski.shape)`. -/
def relabelImg (m : ZImg) : ZImg :=
  { h := m.h, w := m.w, pix := fun y x => (rank m (m.pix y x) : ℤ) }

/-- `maski.max()` after relabeling: the number of distinct values minus one. -/
def maxRelabel (m : ZImg) : ℕ := (allValsF m).card - 1

/-- The pixels of relabeled instance `j` (the `maski == j` group of
`scipy.ndimage.mean`). -/
def errPts (maski : ZImg) (j : ℕ) : List (ℕ × ℕ) :=
  (coordList maski.h maski.w).filter (fun c => decide (maski.pix c.1 c.2 = (j : ℤ)))

/-- `flow_errors[j-1] = Σ_i mean((dP_masks[i] - dP_net[i]/5.)**2, maski, index=j)`:
the per-instance squared-error mean of `flow_error`. -/
def errOf (s : ZImg → Flow2) (net : Flow2) (maski : ZImg) (j : ℕ) : ℚ :=
  (((errPts maski j).map (fun c => ((s maski).pix 0 c.1 c.2 - net.pix 0 c.1 c.2 / 5) ^ 2)).sum +
    ((errPts maski j).map (fun c => ((s maski).pix 1 c.1 c.2 - net.pix 1 c.1 c.2 / 5) ^ 2)).sum) /
    ((errPts maski j).length : ℚ)

/-- `flow_error`: `None` on shape mismatch
(`if dP_net.shape[1:] != maski.shape: return`), otherwise the per-instance
error table over the relabeled mask together with the recomputed flows. -/
def flow_error (s : ZImg → Flow2) (maski : ZImg) (net : Flow2) :
    Option ((ℕ → ℚ) × Flow2) :=
  if net.h = maski.h ∧ net.w = maski.w then
    some (fun j => errOf s net (relabelImg maski) j, s (relabelImg maski))
  else none

/-- `badi = 1+(merrors>threshold).nonzero()[0]`: the relabeled instance
indices whose error exceeds the threshold. -/
def badiSet (s : ZImg → Flow2) (net : Flow2) (m : ZImg) (θ : ℚ) : Finset ℕ :=
  (Finset.Icc 1 (maxRelabel m)).filter (fun j => θ < errOf s net (relabelImg m) j)

/-- `remove_bad_flow_masks`: propagate the `flow_error` failure (the caller's
tuple unpacking raises on `None`), else zero out
`masks[np.isin(masks, badi)]` — membership of the *original* label value in
the relabeled `badi` indices. -/
def remove_bad_flow_masks (s : ZImg → Flow2) (m : ZImg) (net : Flow2) (θ : ℚ) :
    Option ZImg :=
  match flow_error s m net with
  | none => none
  | some _ =>
    some { h := m.h, w := m.w,
           pix := fun y x =>
             if ∃ j ∈ badiSet s net m θ, (j : ℤ) = m.pix y x then 0 else m.pix y x }

/-- The filtered image (the mutated `masks` array of the caller); on the
`None` failure path the input is returned unchanged so that the orchestration
stays total. -/
def filtOnce (s : ZImg → Flow2) (m : ZImg) (net : Flow2) (θ : ℚ) : ZImg :=
  (remove_bad_flow_masks s m net θ).getD m

/-- The number of instances: distinct nonzero label values. -/
def instCount (m : ZImg) : ℕ := ((allValsF m).erase 0).card

/-- Contiguity of the label values (`fastremap`-style density): relabeling by
`np.unique(..., return_inverse=True)` is the identity on the grid. -/
def DenseLabels (m : ZImg) : Prop :=
  ∀ c ∈ coordList m.h m.w, (relabelImg m).pix c.1 c.2 = m.pix c.1 c.2

instance (m : ZImg) : Decidable (DenseLabels m) := by
  unfold DenseLabels
  exact List.decidableBAll _ _

/-- C8: when the flow field's spatial shape does not match the candidate label
image's shape, `flow_error` returns no error table at all (never NaN or
garbage values), and `remove_bad_flow_masks` — whose tuple unpacking of that
result raises in the source — likewise produces no result: the validation
failure surfaces to the caller instead of being silently computed. -/
theorem C8_flow_error_shape_mismatch (s : ZImg → Flow2) (m : ZImg) (net : Flow2) (θ : ℚ)
    (h : ¬ (net.h = m.h ∧ net.w = m.w)) :
    flow_error s m net = none ∧ remove_bad_flow_masks s m net θ = none := by
  have hfe : flow_error s m net = none := by
    unfold flow_error
    rw [if_neg h]
  refine ⟨hfe, ?_⟩
  unfold remove_bad_flow_masks
  rw [hfe]

/-- Witness for C8: a `3×4` flow field against a `4×4` label image. -/
theorem C8_flow_error_shape_mismatch_witness :
    (¬ ((Flow2.mk 3 4 (fun _ _ _ => 0)).h = (ZImg.mk 4 4 (fun _ _ => 1)).h ∧
        (Flow2.mk 3 4 (fun _ _ _ => 0)).w = (ZImg.mk 4 4 (fun _ _ => 1)).w)) ∧
      flow_error solver0 (ZImg.mk 4 4 (fun _ _ => 1)) (Flow2.mk 3 4 (fun _ _ _ => 0)) = none ∧
      remove_bad_flow_masks solver0 (ZImg.mk 4 4 (fun _ _ => 1))
        (Flow2.mk 3 4 (fun _ _ _ => 0)) (2 / 5) = none :=
  ⟨by decide,
    C8_flow_error_shape_mismatch solver0 (ZImg.mk 4 4 (fun _ _ => 1))
      (Flow2.mk 3 4 (fun _ _ _ => 0)) (2 / 5) (by decide)⟩

/-- Rank is bounded by the number of distinct values minus one. -/
lemma rank_le_max (m : ZImg) (v : ℤ) (hv : v ∈ allValsF m) : rank m v ≤ maxRelabel m := by
  unfold rank maxRelabel
  have hsub : (allValsF m).filter (fun u => u < v) ⊆ (allValsF m).erase v := by
    intro u hu
    rw [Finset.mem_filter] at hu
    rw [Finset.mem_erase]
    exact ⟨ne_of_lt hu.2, hu.1⟩
  calc ((allValsF m).filter (fun u => u < v)).card
      ≤ ((allValsF m).erase v).card := Finset.card_le_card hsub
    _ = (allValsF m).card - 1 := Finset.card_erase_of_mem hv

/-- In-range pixel values occur among the distinct values. -/
lemma pix_mem_allValsF (m : ZImg) (c : ℕ × ℕ) (hc : c ∈ coordList m.h m.w) :
    m.pix c.1 c.2 ∈ allValsF m := by
  unfold allValsF
  rw [List.mem_toFinset]
  exact List.mem_map.mpr ⟨c, hc, rfl⟩

/-- With dense labels, the removal test `np.isin(masks, badi)` hits exactly
the pixels whose own instance error exceeds the threshold. -/
lemma dense_bad_iff (s : ZImg → Flow2) (net : Flow2) (θ : ℚ) (m : ZImg)
    (hd : DenseLabels m) (c : ℕ × ℕ) (hc : c ∈ coordList m.h m.w) :
    (∃ j ∈ badiSet s net m θ, (j : ℤ) = m.pix c.1 c.2) ↔
      (m.pix c.1 c.2 ≠ 0 ∧ θ < errOf s net (relabelImg m) (m.pix c.1 c.2).toNat) := by
  constructor
  · rintro ⟨j, hj, hjv⟩
    rw [badiSet, Finset.mem_filter, Finset.mem_Icc] at hj
    obtain ⟨⟨hj1, _⟩, herr⟩ := hj
    constructor
    · rw [← hjv]
      exact Int.natCast_ne_zero.mpr (by omega)
    · have hto : (m.pix c.1 c.2).toNat = j := by
        rw [← hjv]
        exact Int.toNat_ofNat j
      rw [hto]
      exact herr
  · rintro ⟨hne, herr⟩
    have hvr : ((rank m (m.pix c.1 c.2) : ℕ) : ℤ) = m.pix c.1 c.2 := hd c hc
    have hr1 : 1 ≤ rank m (m.pix c.1 c.2) := by
      by_contra h0
      push_neg at h0
      have hz : rank m (m.pix c.1 c.2) = 0 := by omega
      apply hne
      rw [← hvr, hz]
      rfl
    refine ⟨rank m (m.pix c.1 c.2), ?_, hvr⟩
    rw [badiSet, Finset.mem_filter, Finset.mem_Icc]
    refine ⟨⟨hr1, rank_le_max m _ (pix_mem_allValsF m c hc)⟩, ?_⟩
    have hto : (m.pix c.1 c.2).toNat = rank m (m.pix c.1 c.2) := by
      conv_lhs => rw [← hvr]
      exact Int.toNat_ofNat _
    rw [hto] at herr
    exact herr

/-- With matching shapes the filter succeeds and each output pixel is the
input pixel, zeroed iff its value lies in `badi`. -/
lemma filt_pix_of_shape (s : ZImg → Flow2) (net : Flow2) (θ : ℚ) (m : ZImg)
    (hs : net.h = m.h ∧ net.w = m.w) (y x : ℕ) :
    (filtOnce s m net θ).pix y x =
      if ∃ j ∈ badiSet s net m θ, (j : ℤ) = m.pix y x then 0 else m.pix y x := by
  unfold filtOnce remove_bad_flow_masks flow_error
  rw [if_pos hs]
  rfl

/-- With matching shapes the filtered image keeps the input's shape. -/
lemma filt_shape_of_shape (s : ZImg → Flow2) (net : Flow2) (θ : ℚ) (m : ZImg)
    (hs : net.h = m.h ∧ net.w = m.w) :
    (filtOnce s m net θ).h = m.h ∧ (filtOnce s m net θ).w = m.w := by
  unfold filtOnce remove_bad_flow_masks flow_error
  rw [if_pos hs]
  exact ⟨rfl, rfl⟩

/-- On a shape mismatch the filter output falls back to the input. -/
lemma filtOnce_of_mismatch (s : ZImg → Flow2) (net : Flow2) (θ : ℚ) (m : ZImg)
    (hs : ¬ (net.h = m.h ∧ net.w = m.w)) : filtOnce s m net θ = m := by
  unfold filtOnce remove_bad_flow_masks flow_error
  rw [if_neg hs]
  rfl

/-- The filter can only zero pixels, so it never increases the set of
distinct nonzero labels. -/
lemma instCount_filtOnce_le (s : ZImg → Flow2) (net : Flow2) (θ : ℚ) (m : ZImg) :
    instCount (filtOnce s m net θ) ≤ instCount m := by
  by_cases hs : net.h = m.h ∧ net.w = m.w
  · apply Finset.card_le_card
    intro v hv
    rw [Finset.mem_erase] at hv ⊢
    obtain ⟨hv0, hvmem⟩ := hv
    refine ⟨hv0, ?_⟩
    unfold allValsF at hvmem ⊢
    rw [List.mem_toFinset] at hvmem ⊢
    have hcs := filt_shape_of_shape s net θ m hs
    rw [hcs.1, hcs.2] at hvmem
    obtain ⟨c, hc, hcv⟩ := List.mem_map.mp hvmem
    rw [filt_pix_of_shape s net θ m hs] at hcv
    by_cases hb : ∃ j ∈ badiSet s net m θ, (j : ℤ) = m.pix c.1 c.2
    · rw [if_pos hb] at hcv
      exact absurd hcv.symm hv0
    · rw [if_neg hb] at hcv
      exact List.mem_map.mpr ⟨c, hc, hcv⟩
  · rw [filtOnce_of_mismatch s net θ m hs]

/-- C6 (amended): the consistency filter never increases the number of
instances, and when the candidate labels are dense (relabeling is the
identity) it zeroes exactly the pixels of instances whose recomputed flow
error exceeds the threshold.  (Re-filtering need not be a no-op in general:
the `badi` indices refer to relabeled instances but are matched against the
original label values, so non-dense labels can deflect a removal onto the
wrong instance — see the counterexample.) -/
theorem C6_consistency_filter_amended (s : ZImg → Flow2) (net : Flow2) (θ : ℚ) (m : ZImg)
    (hs : net.h = m.h ∧ net.w = m.w) (hd : DenseLabels m) :
    instCount (filtOnce s m net θ) ≤ instCount m ∧
    ∀ c ∈ coordList m.h m.w,
      (filtOnce s m net θ).pix c.1 c.2 =
        if m.pix c.1 c.2 ≠ 0 ∧ θ < errOf s net (relabelImg m) (m.pix c.1 c.2).toNat then 0
        else m.pix c.1 c.2 := by
  refine ⟨instCount_filtOnce_le s net θ m, fun c hc => ?_⟩
  rw [filt_pix_of_shape s net θ m hs]
  by_cases hb : ∃ j ∈ badiSet s net m θ, (j : ℤ) = m.pix c.1 c.2
  · rw [if_pos hb, if_pos ((dense_bad_iff s net θ m hd c hc).mp hb)]
  · rw [if_neg hb, if_neg (fun hcl => hb ((dense_bad_iff s net θ m hd c hc).mpr hcl))]

/-- C10 (amended): `remove_bad_flow_masks` succeeds on matching shapes and
the returned image is the caller's array mutated in place — same shape, every
pixel either unchanged or zeroed; when the labels are dense, every pixel of
an instance whose flow error does not exceed the threshold keeps its original
label.  (Without density a low-error instance can lose its pixels — see the
counterexample; object identity itself is outside a functional model, so the
in-place mutation is rendered as this write-footprint.) -/
theorem C10_remove_bad_frame_and_keep (s : ZImg → Flow2) (net : Flow2) (θ : ℚ) (m : ZImg)
    (hs : net.h = m.h ∧ net.w = m.w) (hd : DenseLabels m) :
    (remove_bad_flow_masks s m net θ).isSome ∧
    (filtOnce s m net θ).h = m.h ∧ (filtOnce s m net θ).w = m.w ∧
    (∀ y x : ℕ, (filtOnce s m net θ).pix y x = m.pix y x ∨ (filtOnce s m net θ).pix y x = 0) ∧
    ∀ c ∈ coordList m.h m.w, m.pix c.1 c.2 ≠ 0 →
      errOf s net (relabelImg m) (m.pix c.1 c.2).toNat ≤ θ →
      (filtOnce s m net θ).pix c.1 c.2 = m.pix c.1 c.2 := by
  refine ⟨?_, (filt_shape_of_shape s net θ m hs).1, (filt_shape_of_shape s net θ m hs).2,
    fun y x => ?_, fun c hc hne hle => ?_⟩
  · unfold remove_bad_flow_masks flow_error
    rw [if_pos hs]
    rfl
  · rw [filt_pix_of_shape s net θ m hs]
    by_cases hb : ∃ j ∈ badiSet s net m θ, (j : ℤ) = m.pix y x
    · rw [if_pos hb]
      exact Or.inr rfl
    · rw [if_neg hb]
      exact Or.inl rfl
  · rw [filt_pix_of_shape s net θ m hs]
    rw [if_neg]
    intro hb
    exact absurd ((dense_bad_iff s net θ m hd c hc).mp hb).2 (not_lt.mpr hle)

/-- Counterexample mask for C6: three single-pixel instances with the
non-dense labels 2, 3, 4 on a 4×4 grid. -/
def cM0 : ZImg :=
  { h := 4, w := 4,
    pix := fun y x => if (y, x) = (1, 1) then 2 else if (y, x) = (1, 2) then 3
      else if (y, x) = (2, 1) then 4 else 0 }

/-- `cM0` after one filter pass: label 3 removed. -/
def cM1 : ZImg :=
  { h := 4, w := 4,
    pix := fun y x => if (y, x) = (1, 1) then 2 else if (y, x) = (2, 1) then 4 else 0 }

/-- `cM1` after another filter pass: label 2 removed as well. -/
def cM2 : ZImg :=
  { h := 4, w := 4, pix := fun y x => if (y, x) = (2, 1) then 4 else 0 }

/-- The predicted flow used against `cM0`/`cM1`: both components `10` on the
pixel of label 4, zero elsewhere. -/
def cNet : Flow2 :=
  { h := 4, w := 4, pix := fun _ y x => if (y, x) = (2, 1) then 10 else 0 }

/-- Witness mask for the amended C6: dense labels 1, 2 on a 2×2 grid. -/
def wM : ZImg :=
  { h := 2, w := 2,
    pix := fun y x => if (y, x) = (0, 0) then 1 else if (y, x) = (0, 1) then 2 else 0 }

/-- All-zero 2×2 flow. -/
def wNet : Flow2 := { h := 2, w := 2, pix := fun _ _ _ => 0 }

/-- Witness for C6 (amended): the dense two-instance mask `wM` with zero
flows; the filter does not increase the instance count and targets exactly
the above-threshold instances. -/
theorem C6_consistency_filter_amended_witness :
    ((wNet.h = wM.h ∧ wNet.w = wM.w) ∧ DenseLabels wM) ∧
      (instCount (filtOnce solver0 wM wNet 1) ≤ instCount wM ∧
        ∀ c ∈ coordList wM.h wM.w,
          (filtOnce solver0 wM wNet 1).pix c.1 c.2 =
            if wM.pix c.1 c.2 ≠ 0 ∧ 1 < errOf solver0 wNet (relabelImg wM) (wM.pix c.1 c.2).toNat
            then 0 else wM.pix c.1 c.2) :=
  ⟨⟨⟨rfl, rfl⟩, by decide⟩,
    C6_consistency_filter_amended solver0 wNet 1 wM ⟨rfl, rfl⟩ (by decide)⟩

/-- Counterexample mask for C10: two single-pixel instances with the
non-dense labels 2 and 5. -/
def dM0 : ZImg :=
  { h := 4, w := 4,
    pix := fun y x => if (y, x) = (1, 1) then 2 else if (y, x) = (2, 2) then 5 else 0 }

/-- The predicted flow used against `dM0`: both components `10` on the pixel
of label 5, zero elsewhere. -/
def dNet : Flow2 :=
  { h := 4, w := 4, pix := fun _ y x => if (y, x) = (2, 2) then 10 else 0 }

/-- Witness mask for the amended C10: a dense single instance. -/
def xM : ZImg :=
  { h := 2, w := 2, pix := fun y x => if (y, x) = (0, 0) then 1 else 0 }

/-- Witness for C10 (amended): on the dense mask `xM` with zero flows the
filter succeeds, only zeroes pixels, and keeps every pixel of a
within-threshold instance. -/
theorem C10_remove_bad_frame_and_keep_witness :
    ((wNet.h = xM.h ∧ wNet.w = xM.w) ∧ DenseLabels xM) ∧
      ((remove_bad_flow_masks solver0 xM wNet 1).isSome ∧
        (filtOnce solver0 xM wNet 1).h = xM.h ∧ (filtOnce solver0 xM wNet 1).w = xM.w ∧
        (∀ y x : ℕ, (filtOnce solver0 xM wNet 1).pix y x = xM.pix y x ∨
          (filtOnce solver0 xM wNet 1).pix y x = 0) ∧
        ∀ c ∈ coordList xM.h xM.w, xM.pix c.1 c.2 ≠ 0 →
          errOf solver0 wNet (relabelImg xM) (xM.pix c.1 c.2).toNat ≤ 1 →
          (filtOnce solver0 xM wNet 1).pix c.1 c.2 = xM.pix c.1 c.2) :=
  ⟨⟨⟨rfl, rfl⟩, by decide⟩,
    C10_remove_bad_frame_and_keep solver0 wNet 1 xM ⟨rfl, rfl⟩ (by decide)⟩

lemma errPts_cM0_1 : errPts (relabelImg cM0) 1 = [(1, 1)] := by decide

lemma errPts_cM0_2 : errPts (relabelImg cM0) 2 = [(1, 2)] := by decide

lemma errPts_cM0_3 : errPts (relabelImg cM0) 3 = [(2, 1)] := by decide

lemma errOf_cM0_1 : errOf solver0 cNet (relabelImg cM0) 1 = 0 := by
  unfold errOf
  rw [errPts_cM0_1]
  norm_num [solver0, cNet]

lemma errOf_cM0_2 : errOf solver0 cNet (relabelImg cM0) 2 = 0 := by
  unfold errOf
  rw [errPts_cM0_2]
  norm_num [solver0, cNet]

lemma errOf_cM0_3 : errOf solver0 cNet (relabelImg cM0) 3 = 8 := by
  unfold errOf
  rw [errPts_cM0_3]
  norm_num [solver0, cNet]

/-- On `cM0` only relabeled instance 3 (original label 4) exceeds the 0.4
threshold. -/
lemma badi_cM0 : badiSet solver0 cNet cM0 (2 / 5) = {3} := by
  unfold badiSet
  rw [show maxRelabel cM0 = 3 from by decide]
  ext j
  simp only [Finset.mem_filter, Finset.mem_Icc, Finset.mem_singleton]
  constructor
  · rintro ⟨⟨h1, h3⟩, herr⟩
    interval_cases j
    · rw [errOf_cM0_1] at herr
      norm_num at herr
    · rw [errOf_cM0_2] at herr
      norm_num at herr
    · rfl
  · rintro rfl
    exact ⟨⟨by norm_num, le_refl 3⟩, by rw [errOf_cM0_3]; norm_num⟩

/-- First pass on `cM0`: `badi = [3]` removes original label 3 — the pixel of
relabeled instance 2, not of the bad instance 3. -/
lemma filt_cM0 : filtOnce solver0 cM0 cNet (2 / 5) = cM1 := by
  unfold filtOnce remove_bad_flow_masks flow_error
  rw [if_pos (⟨rfl, rfl⟩ : cNet.h = cM0.h ∧ cNet.w = cM0.w)]
  show ZImg.mk cM0.h cM0.w _ = cM1
  unfold cM1
  congr 1
  funext y x
  rw [badi_cM0]
  simp only [Finset.mem_singleton, exists_eq_left]
  unfold cM0
  by_cases h1 : (y, x) = (1, 1)
  · simp [h1]
  · by_cases h2 : (y, x) = (1, 2)
    · simp [h1, h2]
    · by_cases h3 : (y, x) = (2, 1)
      · simp [h1, h2, h3]
      · rw [Prod.mk.injEq] at h1 h2 h3
        simp [h1, h2, h3]

lemma errPts_cM1_1 : errPts (relabelImg cM1) 1 = [(1, 1)] := by decide

lemma errPts_cM1_2 : errPts (relabelImg cM1) 2 = [(2, 1)] := by decide

lemma errOf_cM1_1 : errOf solver0 cNet (relabelImg cM1) 1 = 0 := by
  unfold errOf
  rw [errPts_cM1_1]
  norm_num [solver0, cNet]

lemma errOf_cM1_2 : errOf solver0 cNet (relabelImg cM1) 2 = 8 := by
  unfold errOf
  rw [errPts_cM1_2]
  norm_num [solver0, cNet]

/-- On `cM1` relabeled instance 2 (original label 4) exceeds the threshold. -/
lemma badi_cM1 : badiSet solver0 cNet cM1 (2 / 5) = {2} := by
  unfold badiSet
  rw [show maxRelabel cM1 = 2 from by decide]
  ext j
  simp only [Finset.mem_filter, Finset.mem_Icc, Finset.mem_singleton]
  constructor
  · rintro ⟨⟨h1, h2⟩, herr⟩
    interval_cases j
    · rw [errOf_cM1_1] at herr
      norm_num at herr
    · rfl
  · rintro rfl
    exact ⟨⟨by norm_num, le_refl 2⟩, by rw [errOf_cM1_2]; norm_num⟩

/-- Second pass: `badi = [2]` now removes original label 2 — the pixel of the
within-threshold instance (its own error is 0). -/
lemma filt_cM1 : filtOnce solver0 cM1 cNet (2 / 5) = cM2 := by
  unfold filtOnce remove_bad_flow_masks flow_error
  rw [if_pos (⟨rfl, rfl⟩ : cNet.h = cM1.h ∧ cNet.w = cM1.w)]
  show ZImg.mk cM1.h cM1.w _ = cM2
  unfold cM2
  congr 1
  funext y x
  rw [badi_cM1]
  simp only [Finset.mem_singleton, exists_eq_left]
  unfold cM1
  by_cases h1 : (y, x) = (1, 1)
  · rw [Prod.mk.injEq] at h1
    obtain ⟨rfl, rfl⟩ := h1
    decide
  · by_cases h2 : (y, x) = (2, 1)
    · rw [Prod.mk.injEq] at h2
      obtain ⟨rfl, rfl⟩ := h2
      decide
    · rw [Prod.mk.injEq] at h1 h2
      simp [h1, h2]

/-- C6 counterexample: on the candidate label image `cM0` (labels 2, 3, 4)
with flow field `cNet` and threshold 0.4, the first filter pass leaves 2
instances, and applying the filter a second time to its own output removes a
further instance (1 left): re-filtering is not a no-op.  `solver0` is an
admissible recomputed-flow solver (`SolverOK`), and on these single-pixel
instances every admissible solver yields the same zero flow (see
`filtOnce_solver_independent_cM0`). -/
theorem C6_counterexample :
    SolverOK solver0 ∧ instCount cM0 = 3 ∧
    instCount (filtOnce solver0 cM0 cNet (2 / 5)) = 2 ∧
    instCount (filtOnce solver0 (filtOnce solver0 cM0 cNet (2 / 5)) cNet (2 / 5)) = 1 := by
  refine ⟨solverOK_solver0, by decide, ?_, ?_⟩
  · rw [filt_cM0]
    decide
  · rw [filt_cM0, filt_cM1]
    decide

lemma errPts_dM0_1 : errPts (relabelImg dM0) 1 = [(1, 1)] := by decide

lemma errPts_dM0_2 : errPts (relabelImg dM0) 2 = [(2, 2)] := by decide

lemma errOf_dM0_1 : errOf solver0 dNet (relabelImg dM0) 1 = 0 := by
  unfold errOf
  rw [errPts_dM0_1]
  norm_num [solver0, dNet]

lemma errOf_dM0_2 : errOf solver0 dNet (relabelImg dM0) 2 = 8 := by
  unfold errOf
  rw [errPts_dM0_2]
  norm_num [solver0, dNet]

/-- On `dM0` relabeled instance 2 (original label 5) exceeds the threshold. -/
lemma badi_dM0 : badiSet solver0 dNet dM0 (2 / 5) = {2} := by
  unfold badiSet
  rw [show maxRelabel dM0 = 2 from by decide]
  ext j
  simp only [Finset.mem_filter, Finset.mem_Icc, Finset.mem_singleton]
  constructor
  · rintro ⟨⟨h1, h2⟩, herr⟩
    interval_cases j
    · rw [errOf_dM0_1] at herr
      norm_num at herr
    · rfl
  · rintro rfl
    exact ⟨⟨by norm_num, le_refl 2⟩, by rw [errOf_dM0_2]; norm_num⟩

/-- C10 counterexample: on `dM0` (labels 2 and 5) the pixel `(1,1)` belongs to
relabeled instance 1, whose flow error is `0 ≤ 0.4`, yet
`remove_bad_flow_masks` zeroes it: `badi = [2]` (relabeled index of the bad
instance, original label 5) is matched against the original label values and
hits label 2 instead. -/
theorem C10_counterexample :
    SolverOK solver0 ∧
    dM0.pix 1 1 = 2 ∧ (relabelImg dM0).pix 1 1 = 1 ∧
    errOf solver0 dNet (relabelImg dM0) 1 = 0 ∧ ((0 : ℚ) ≤ 2 / 5) ∧
    (filtOnce solver0 dM0 dNet (2 / 5)).pix 1 1 = 0 := by
  refine ⟨solverOK_solver0, by decide, by decide, errOf_dM0_1, by norm_num, ?_⟩
  rw [filt_pix_of_shape solver0 dNet (2 / 5) dM0 ⟨rfl, rfl⟩, badi_dM0]
  simp only [Finset.mem_singleton, exists_eq_left]
  norm_num [dM0]

/-- Every foreground pixel's four cardinal neighbours carry a different label
(the shapes of the counterexample masks: isolated single-pixel instances).
The neighbour offsets are written exactly as `gradTerm` produces them. -/
def CardinalIsolated (m : ZImg) : Prop :=
  ∀ y x : ℕ, m.pix y x ≠ 0 →
    labAt m ((y : ℤ) + 1) ((x : ℤ) + 0) ≠ labAt m (y : ℤ) (x : ℤ) ∧
    labAt m ((y : ℤ) + (-1)) ((x : ℤ) + 0) ≠ labAt m (y : ℤ) (x : ℤ) ∧
    labAt m ((y : ℤ) + 0) ((x : ℤ) + 1) ≠ labAt m (y : ℤ) (x : ℤ) ∧
    labAt m ((y : ℤ) + 0) ((x : ℤ) + (-1)) ≠ labAt m (y : ℤ) (x : ℤ)

/-- On a mask of isolated single-pixel instances the masked central
difference vanishes for every potential field: all `grads` entries are masked
out. -/
lemma muFromT_zero_of_isolated (m : ZImg) (hm : CardinalIsolated m) (T : ℤ × ℤ → ℚ)
    (i : Fin 2) (y x : ℕ) : (muFromT m T).pix i y x = 0 := by
  unfold muFromT gradTerm
  dsimp only
  rcases Decidable.em (m.pix y x ≠ 0) with hp | hp
  · obtain ⟨h1, h2, h3, h4⟩ := hm y x hp
    rw [if_pos hp]
    by_cases hi : i = 0
    · rw [if_pos hi, if_neg h1, if_neg h2]
      norm_num
    · rw [if_neg hi, if_neg h3, if_neg h4]
      norm_num
  · rw [if_neg hp]

/-- Any admissible solver (cf. `SolverOK`) returns zero flow on a mask of
isolated single-pixel instances — exactly what `solver0` returns. -/
lemma solver_zero_of_isolated (s : ZImg → Flow2) (hs : SolverOK s) (m : ZImg)
    (hm : CardinalIsolated m) (i : Fin 2) (y x : ℕ) : (s m).pix i y x = 0 := by
  obtain ⟨-, -, T, hT⟩ := hs m
  exact hT i y x (muFromT_zero_of_isolated m hm T i y x)

/-- The per-instance errors only read the solver's pixel values, so a solver
that vanishes on the relabeled mask gives `solver0`'s errors. -/
lemma errOf_eq_of_solver_zero (s : ZImg → Flow2) (net : Flow2) (maski : ZImg) (j : ℕ)
    (hz : ∀ (i : Fin 2) (y x : ℕ), (s maski).pix i y x = 0) :
    errOf s net maski j = errOf solver0 net maski j := by
  unfold errOf solver0
  simp only [hz]

/-- The `badi` index set agrees across admissible solvers on masks whose
relabeling has isolated single-pixel instances. -/
lemma badi_eq_of_isolated (s : ZImg → Flow2) (hs : SolverOK s) (m : ZImg) (net : Flow2)
    (θ : ℚ) (hm : CardinalIsolated (relabelImg m)) :
    badiSet s net m θ = badiSet solver0 net m θ := by
  unfold badiSet
  apply Finset.filter_congr
  intro j _
  rw [errOf_eq_of_solver_zero s net (relabelImg m) j
    (solver_zero_of_isolated s hs (relabelImg m) hm)]

lemma iso_relabel_cM0 : CardinalIsolated (relabelImg cM0) := by
  intro y x h
  rcases Decidable.em ((y, x) = (1, 1)) with h1 | h1
  · rw [Prod.mk.injEq] at h1
    obtain ⟨rfl, rfl⟩ := h1
    exact ⟨by decide, by decide, by decide, by decide⟩
  rcases Decidable.em ((y, x) = (1, 2)) with h2 | h2
  · rw [Prod.mk.injEq] at h2
    obtain ⟨rfl, rfl⟩ := h2
    exact ⟨by decide, by decide, by decide, by decide⟩
  rcases Decidable.em ((y, x) = (2, 1)) with h3 | h3
  · rw [Prod.mk.injEq] at h3
    obtain ⟨rfl, rfl⟩ := h3
    exact ⟨by decide, by decide, by decide, by decide⟩
  exfalso
  apply h
  have hp : cM0.pix y x = 0 := by
    show (if (y, x) = (1, 1) then 2 else if (y, x) = (1, 2) then 3
      else if (y, x) = (2, 1) then 4 else (0 : ℤ)) = 0
    rw [if_neg h1, if_neg h2, if_neg h3]
  show ((rank cM0 (cM0.pix y x) : ℕ) : ℤ) = 0
  rw [hp, show rank cM0 0 = 0 from by decide]
  rfl

lemma iso_relabel_cM1 : CardinalIsolated (relabelImg cM1) := by
  intro y x h
  rcases Decidable.em ((y, x) = (1, 1)) with h1 | h1
  · rw [Prod.mk.injEq] at h1
    obtain ⟨rfl, rfl⟩ := h1
    exact ⟨by decide, by decide, by decide, by decide⟩
  rcases Decidable.em ((y, x) = (2, 1)) with h2 | h2
  · rw [Prod.mk.injEq] at h2
    obtain ⟨rfl, rfl⟩ := h2
    exact ⟨by decide, by decide, by decide, by decide⟩
  exfalso
  apply h
  have hp : cM1.pix y x = 0 := by
    show (if (y, x) = (1, 1) then 2 else if (y, x) = (2, 1) then 4 else (0 : ℤ)) = 0
    rw [if_neg h1, if_neg h2]
  show ((rank cM1 (cM1.pix y x) : ℕ) : ℤ) = 0
  rw [hp, show rank cM1 0 = 0 from by decide]
  rfl

lemma iso_relabel_dM0 : CardinalIsolated (relabelImg dM0) := by
  intro y x h
  rcases Decidable.em ((y, x) = (1, 1)) with h1 | h1
  · rw [Prod.mk.injEq] at h1
    obtain ⟨rfl, rfl⟩ := h1
    exact ⟨by decide, by decide, by decide, by decide⟩
  rcases Decidable.em ((y, x) = (2, 2)) with h2 | h2
  · rw [Prod.mk.injEq] at h2
    obtain ⟨rfl, rfl⟩ := h2
    exact ⟨by decide, by decide, by decide, by decide⟩
  exfalso
  apply h
  have hp : dM0.pix y x = 0 := by
    show (if (y, x) = (1, 1) then 2 else if (y, x) = (2, 2) then 5 else (0 : ℤ)) = 0
    rw [if_neg h1, if_neg h2]
  show ((rank dM0 (dM0.pix y x) : ℕ) : ℤ) = 0
  rw [hp, show rank dM0 0 = 0 from by decide]
  rfl

lemma filtOnce_solver_independent_cM0 (s : ZImg → Flow2) (hs : SolverOK s) :
    filtOnce s cM0 cNet (2 / 5) = filtOnce solver0 cM0 cNet (2 / 5) := by
  unfold filtOnce remove_bad_flow_masks flow_error
  rw [if_pos (⟨rfl, rfl⟩ : cNet.h = cM0.h ∧ cNet.w = cM0.w)]
  show ZImg.mk cM0.h cM0.w _ = ZImg.mk cM0.h cM0.w _
  congr 1
  funext y x
  rw [badi_eq_of_isolated s hs cM0 cNet (2 / 5) iso_relabel_cM0]

lemma filtOnce_solver_independent_cM1 (s : ZImg → Flow2) (hs : SolverOK s) :
    filtOnce s cM1 cNet (2 / 5) = filtOnce solver0 cM1 cNet (2 / 5) := by
  unfold filtOnce remove_bad_flow_masks flow_error
  rw [if_pos (⟨rfl, rfl⟩ : cNet.h = cM1.h ∧ cNet.w = cM1.w)]
  show ZImg.mk cM1.h cM1.w _ = ZImg.mk cM1.h cM1.w _
  congr 1
  funext y x
  rw [badi_eq_of_isolated s hs cM1 cNet (2 / 5) iso_relabel_cM1]

/-- The two filter passes of the C6 counterexample behave identically for
every admissible recomputed-flow solver: abstracting the solver loses no
faithfulness on these inputs. -/
theorem consistency_filter_solver_independent (s : ZImg → Flow2) (hs : SolverOK s) :
    filtOnce s cM0 cNet (2 / 5) = filtOnce solver0 cM0 cNet (2 / 5) ∧
    filtOnce s (filtOnce s cM0 cNet (2 / 5)) cNet (2 / 5) =
      filtOnce solver0 (filtOnce solver0 cM0 cNet (2 / 5)) cNet (2 / 5) := by
  have h1 := filtOnce_solver_independent_cM0 s hs
  refine ⟨h1, ?_⟩
  rw [h1, filt_cM0, filtOnce_solver_independent_cM1 s hs]

/-- The C10 counterexample filter pass likewise agrees across all admissible
solvers. -/
theorem remove_bad_solver_independent_dM0 (s : ZImg → Flow2) (hs : SolverOK s) :
    filtOnce s dM0 dNet (2 / 5) = filtOnce solver0 dM0 dNet (2 / 5) := by
  unfold filtOnce remove_bad_flow_masks flow_error
  rw [if_pos (⟨rfl, rfl⟩ : dNet.h = dM0.h ∧ dNet.w = dM0.w)]
  show ZImg.mk dM0.h dM0.w _ = ZImg.mk dM0.h dM0.w _
  congr 1
  funext y x
  rw [badi_eq_of_isolated s hs dM0 dNet (2 / 5) iso_relabel_dM0]

/-! ### Section 9: point-source seed selection
(`masks_to_flows_torch`, core.py lines 274-285), claim C7

For every instance whose integer-cast centroid (`center_of_mass(...).astype(int)`)
falls outside the instance, the source computes
`coords = np.array(np.nonzero(masks_padded==(i+1)))` (shape `d × npix`, scan
order), then `meds = np.median(coords, axis=0)` and
`imin = np.argmin(np.sum((coords-meds)**2, axis=0))`.  With `axis=0` the
median runs across the `d` coordinate axes of each pixel — for 2-D the
per-pixel average `(y+x)/2` — and the objective rewards pixels near the
diagonal `y = x`.  The function's own docstring (and the spec) define the
seed as the pixel closest to the per-axis median of all pixels, which is
`np.median(coords, axis=1)`. -/

/-- Insertion into a sorted list. -/
def insertOrd (v : ℚ) : List ℚ → List ℚ
  | [] => [v]
  | w :: ws => if v ≤ w then v :: w :: ws else w :: insertOrd v ws

/-- Insertion sort (ascending), the order underlying `np.median`. -/
def sortQ (l : List ℚ) : List ℚ := l.foldr insertOrd []

/-- `np.median` of a list: middle element for odd length, average of the two
middle elements for even length. -/
def medianQ (l : List ℚ) : ℚ :=
  if l.length % 2 = 1 then (sortQ l).getD (l.length / 2) 0
  else ((sortQ l).getD (l.length / 2 - 1) 0 + (sortQ l).getD (l.length / 2) 0) / 2

/-- `np.argmin`: index of the first minimum. -/
def argminAux : List ℚ → ℕ → ℕ → ℚ → ℕ
  | [], _, best, _ => best
  | v :: vs, i, best, bv =>
    if v < bv then argminAux vs (i + 1) i v else argminAux vs (i + 1) best bv

/-- `np.argmin` over a list of objective values. -/
def argminQ : List ℚ → ℕ
  | [] => 0
  | v :: vs => argminAux vs 1 0 v

/-- The source's objective for a pixel `(y, x)`:
`np.sum((coords - np.median(coords, axis=0))**2, axis=0)` — the squared
deviation of the pixel's own coordinates from their per-pixel median. -/
def codeMedObjective (p : ℕ × ℕ) : ℚ :=
  ((p.1 : ℚ) - medianQ [(p.1 : ℚ), (p.2 : ℚ)]) ^ 2 +
    ((p.2 : ℚ) - medianQ [(p.1 : ℚ), (p.2 : ℚ)]) ^ 2

/-- The seed pixel the source selects (`coords[:, imin]`, first minimum in
`np.nonzero` scan order). -/
def codeSeed (pts : List (ℕ × ℕ)) : ℕ × ℕ :=
  pts.getD (argminQ (pts.map codeMedObjective)) (0, 0)

/-- The documented objective: squared distance to the coordinate median of
all the instance's pixels (`np.median(coords, axis=1)`). -/
def medianObjective (pts : List (ℕ × ℕ)) (p : ℕ × ℕ) : ℚ :=
  ((p.1 : ℚ) - medianQ (pts.map (fun q => (q.1 : ℚ)))) ^ 2 +
    ((p.2 : ℚ) - medianQ (pts.map (fun q => (q.2 : ℚ)))) ^ 2

/-- The seed pixel the docstring and spec describe: the instance pixel
nearest to the coordinate median. -/
def medianSeed (pts : List (ℕ × ℕ)) : ℕ × ℕ :=
  pts.getD (argminQ (pts.map (medianObjective pts))) (0, 0)

/-- `scipy.ndimage.center_of_mass(...).astype(int)`: the truncated centroid
(all coordinates nonnegative, so truncation is the floor). -/
def centroidPix (pts : List (ℕ × ℕ)) : ℤ × ℤ :=
  (⌊(pts.map (fun q => (q.1 : ℚ))).sum / (pts.length : ℚ)⌋,
   ⌊(pts.map (fun q => (q.2 : ℚ))).sum / (pts.length : ℚ)⌋)

/-- A 9-pixel L-shaped instance (column `x = 0` joined to row `y = 4`), in
row-major scan order. -/
def Lpts : List (ℕ × ℕ) :=
  [(0, 0), (1, 0), (2, 0), (3, 0), (4, 0), (4, 1), (4, 2), (4, 3), (4, 4)]

/-- C7: on the L-shaped instance `Lpts` the truncated centroid `(2, 1)` lies
outside the instance — so the median-based branch runs — yet the source picks
the pixel `(0, 0)` (its per-pixel axis-0 median objective rewards the
diagonal), while the pixel nearest the coordinate median `(4, 0)` of the
instance — the seed the docstring and the claim describe — is `(4, 0)`.
The code contradicts its own documentation (`axis=0` instead of `axis=1` at
core.py line 283). -/
theorem C7_seed_median_bug :
    centroidPix Lpts = (2, 1) ∧
    ((2 : ℤ), (1 : ℤ)) ∉ Lpts.map (fun p => ((p.1 : ℤ), (p.2 : ℤ))) ∧
    codeSeed Lpts = (0, 0) ∧ medianSeed Lpts = (4, 0) ∧ codeSeed Lpts ≠ medianSeed Lpts := by
  have hys : Lpts.map (fun q => (q.1 : ℚ)) = [0, 1, 2, 3, 4, 4, 4, 4, 4] := by
    norm_num [Lpts]
  have hxs : Lpts.map (fun q => (q.2 : ℚ)) = [0, 0, 0, 0, 0, 1, 2, 3, 4] := by
    norm_num [Lpts]
  have hmy : medianQ [(0 : ℚ), 1, 2, 3, 4, 4, 4, 4, 4] = 4 := by
    norm_num [medianQ, sortQ, insertOrd]
  have hmx : medianQ [(0 : ℚ), 0, 0, 0, 0, 1, 2, 3, 4] = 0 := by
    norm_num [medianQ, sortQ, insertOrd]
  have hcodeList : Lpts.map codeMedObjective =
      [0, 1 / 2, 2, 9 / 2, 8, 9 / 2, 2, 1 / 2, 0] := by
    norm_num [Lpts, codeMedObjective, medianQ, sortQ, insertOrd]
  have hspecList : Lpts.map (medianObjective Lpts) = [16, 9, 4, 1, 0, 1, 4, 9, 16] := by
    norm_num [Lpts, medianObjective, medianQ, sortQ, insertOrd]
  have hargc : argminQ [(0 : ℚ), 1 / 2, 2, 9 / 2, 8, 9 / 2, 2, 1 / 2, 0] = 0 := by
    norm_num [argminQ, argminAux]
  have hargs : argminQ [(16 : ℚ), 9, 4, 1, 0, 1, 4, 9, 16] = 4 := by
    norm_num [argminQ, argminAux]
  have hcs : codeSeed Lpts = (0, 0) := by
    unfold codeSeed
    rw [hcodeList, hargc]
    rfl
  have hms : medianSeed Lpts = (4, 0) := by
    unfold medianSeed
    rw [hspecList, hargs]
    rfl
  refine ⟨?_, by decide, hcs, hms, by rw [hcs, hms]; decide⟩
  unfold centroidPix
  rw [hys, hxs]
  have h1 : ([(0 : ℚ), 1, 2, 3, 4, 4, 4, 4, 4]).sum / (Lpts.length : ℚ) = 26 / 9 := by
    norm_num [Lpts]
  have h2 : ([(0 : ℚ), 0, 0, 0, 0, 1, 2, 3, 4]).sum / (Lpts.length : ℚ) = 10 / 9 := by
    norm_num [Lpts]
  rw [h1, h2, Prod.mk.injEq]
  refine ⟨?_, ?_⟩
  · rw [Int.floor_eq_iff]
    norm_num
  · rw [Int.floor_eq_iff]
    norm_num
